import Mathlib

/-!
# Verification of clgen/preprocess.py

A shallow embedding of the preprocessing pipeline of `src/clgen/preprocess.py`
(CLgen, "Preprocess OpenCL files for machine learning"), together with proofs
about the embedded definitions.

Modelling conventions:
* Python strings are `String` / `List Char`; Python ints are `Nat`/`Int`;
  Python floats are modelled as exact rationals `ℚ` (the only float operations
  performed by the source are divisions of integer-valued counts and
  comparisons against the integer 0).
* Python dicts are association lists in insertion order; assignment to an
  existing key overwrites in place, a new key is appended (`dictInsert`).
* External subprocesses (clang, opt, clgen-rewriter, clang-format) are
  modelled by a `ToolEnv` of functions from the stdin/argument contents to a
  `ToolResult` (exit code, stdout, stderr).
* Raised Python exceptions are `Except` errors; the CLgen exception class
  hierarchy of preprocess.py lines 56-68 is the inductive `PipeErr` together
  with the `isBadCode` / `isUglyCode` / `isLlvmException` class predicates.
-/

namespace Clgen

/-! ## Python string primitives -/

/-- Python whitespace (`str.split()` / `str.strip()` separators), ASCII part:
space, tab, newline, carriage return, vertical tab, form feed. -/
def pyIsSpace (c : Char) : Bool :=
  c = ' ' || c = '\t' || c = '\n' || c = '\r' || c = Char.ofNat 11 || c = Char.ofNat 12

/-- Python `str.strip()` on a character list: drop whitespace from both ends. -/
def pyStripChars (l : List Char) : List Char :=
  ((l.dropWhile pyIsSpace).reverse.dropWhile pyIsSpace).reverse

/-- Python `str.strip()`. -/
def pyStrip (s : String) : String :=
  String.mk (pyStripChars s.toList)

/-- Python `str.split()` (no separator argument): the maximal runs of
non-whitespace characters, in order; empty tokens do not occur. -/
def pyWords : List Char → List (List Char)
  | [] => []
  | c :: rest =>
    if pyIsSpace c then pyWords rest
    else
      match rest with
      | [] => [[c]]
      | d :: _ =>
        if pyIsSpace d then [c] :: pyWords rest
        else
          match pyWords rest with
          | [] => [[c]]
          | w :: ws => (c :: w) :: ws

/-- Python `' '.join(words)`: the words separated by single spaces. -/
def pyJoinWords : List (List Char) → List Char
  | [] => []
  | [w] => w
  | w :: v :: ws => w ++ ' ' :: pyJoinWords (v :: ws)

/-- Python `str.split(sep)` for a one-character separator: keeps empty
chunks; splitting the empty string yields one empty chunk. -/
def splitOnChar (sep : Char) : List Char → List (List Char)
  | [] => [[]]
  | c :: r =>
    if c = sep then [] :: splitOnChar sep r
    else
      match splitOnChar sep r with
      | [] => [[c]]
      | l :: ls => (c :: l) :: ls

/-! ## Exception taxonomy (preprocess.py lines 56-68)

```
class LlvmException(clgen.CLgenError): pass
class ClangFormatException(LlvmException): pass
class OptException(LlvmException): pass

class BadCodeException(clgen.CLgenError): pass
class ClangException(BadCodeException): pass
class CodeAnalysisException(BadCodeException): pass

class UglyCodeException(clgen.CLgenError): pass
class InstructionCountException(UglyCodeException): pass
class RewriterException(UglyCodeException): pass
```
`keyError` and `zeroDivisionError` are the builtin Python exceptions that the
feature-extraction code can additionally raise; they are not CLgen errors. -/

inductive PipeErr : Type where
  | clangFormatException (msg : String)
  | optException (msg : String)
  | clangException (msg : String)
  | codeAnalysisException (msg : String)
  | instructionCountException (msg : String)
  | rewriterException (msg : String)
  | keyError (key : String)
  | zeroDivisionError
deriving DecidableEq, Repr

/-- Membership in the `BadCodeException` class. -/
def PipeErr.isBadCode : PipeErr → Bool
  | .clangException _ => true
  | .codeAnalysisException _ => true
  | _ => false

/-- Membership in the `UglyCodeException` class. -/
def PipeErr.isUglyCode : PipeErr → Bool
  | .instructionCountException _ => true
  | .rewriterException _ => true
  | _ => false

/-- Membership in the `LlvmException` class. -/
def PipeErr.isLlvmException : PipeErr → Bool
  | .clangFormatException _ => true
  | .optException _ => true
  | _ => false

/-- Python `str(e)` for the exceptions above: each one is constructed with a
single string argument (the message), except the two builtins. -/
def PipeErr.pymsg : PipeErr → String
  | .clangFormatException m => m
  | .optException m => m
  | .clangException m => m
  | .codeAnalysisException m => m
  | .instructionCountException m => m
  | .rewriterException m => m
  | .keyError k => k
  | .zeroDivisionError => "division by zero"

/-! ## External toolchain -/

/-- Result of one synchronous subprocess invocation. -/
structure ToolResult : Type where
  exitCode : Int
  stdout : String
  stderr : String
deriving DecidableEq, Repr

/-- The behaviour of the four external tools, as functions from the content
fed to them (stdin text, or the temp-file contents for the rewriter) to the
process result.  `opt_instcount` is fed the bytecode (clang's stdout). -/
structure ToolEnv : Type where
  clang_emit : String → ToolResult
  opt_instcount : String → ToolResult
  clang_cpp : String → ToolResult
  rewriter : String → ToolResult
  clang_format : String → ToolResult

/-! ## Feature extractor -/

/-- `'_'.join(key.split(' '))`: every single space becomes an underscore
(Python `split(' ')` keeps empty chunks, so consecutive spaces each yield an
underscore). -/
def joinSpaceUnderscore (l : List Char) : List Char :=
  l.map (fun c => if c = ' ' then '_' else c)

/-- `re.sub(r'[\(\)]', '', ·)`: delete parentheses. -/
def rmParens (l : List Char) : List Char :=
  l.filter (fun c => ¬(c = '(' || c = ')'))

/-- `re.sub(r'-', '_', ·)`: hyphens become underscores. -/
def subHyphens (l : List Char) : List Char :=
  l.map (fun c => if c = '-' then '_' else c)

/-- `escape_sql_key` (preprocess.py lines 209-211). -/
def escape_sql_key (key : String) : String :=
  String.mk (subHyphens (rmParens (joinSpaceUnderscore key.toList)))

/-- The fixed separator text of the `_instcount_re` pattern
`^(?P<count>\d+) instcount - Number of (?P<type>.+)`. -/
def instcount_marker : String := " instcount - Number of "

/-- Decimal digits to a number. -/
def digitsToNat (ds : List Char) : Nat :=
  ds.foldl (fun a c => a * 10 + (c.toNat - '0'.toNat)) 0

/-- One (already stripped) line matched against `_instcount_re`: a nonempty
maximal digit run, then the literal marker, then a nonempty remainder (the
instruction type). -/
def parseInstLine (l : List Char) : Option (Nat × String) :=
  let ds := l.takeWhile Char.isDigit
  let rest := l.dropWhile Char.isDigit
  if ds.isEmpty then none
  else if instcount_marker.toList.isPrefixOf rest then
    let ty := rest.drop instcount_marker.length
    if ty.isEmpty then none else some (digitsToNat ds, String.mk ty)
  else none

/-- Python dict assignment `d[k] = v` on an insertion-ordered association
list: overwrite in place if present, else append. -/
def dictInsert {α : Type} (d : List (String × α)) (k : String) (v : α) :
    List (String × α) :=
  if k ∈ d.map Prod.fst then d.map (fun p => if p.1 = k then (k, v) else p)
  else d ++ [(k, v)]

/-- Accumulate one instcount entry: `counts[key].append(count)` followed by
the final per-key `sum` of preprocess.py's `parse_instcounts` collapses to
adding the count to the key's running total. -/
def dictAddNat (d : List (String × Nat)) (k : String) (c : Nat) :
    List (String × Nat) :=
  if k ∈ d.map Prod.fst then d.map (fun p => if p.1 = k then (p.1, p.2 + c) else p)
  else d ++ [(k, c)]

/-- `parse_instcounts` (preprocess.py lines 183-202): strip each line of the
report, match against `_instcount_re`, and sum the counts per type in order
of first appearance. -/
def parse_instcounts (txt : String) : List (String × Nat) :=
  ((splitOnChar '\n' txt.toList).map pyStripChars).foldl
    (fun counts line =>
      match parseInstLine line with
      | some (c, ty) => dictAddNat counts ty c
      | none => counts) []

/-- A Python value stored in a feature dict: an int count or a float ratio
(floats modelled as exact rationals). -/
inductive FeatVal : Type where
  | int (n : Int)
  | rat (q : ℚ)
deriving DecidableEq, Repr

/-- Numeric value, as used by Python's `<` between ints and floats. -/
def FeatVal.toRat : FeatVal → ℚ
  | .int n => (n : ℚ)
  | .rat q => q

/-- The reserved total key `"instructions (of all types)"`. -/
def total_key : String := "instructions (of all types)"

/-- The per-key loop of `instcounts2ratios`: for every key other than
`total_key`, insert the raw count and then the ratio `count / total`; a zero
total raises `ZeroDivisionError` at the first ratio computation (Python float
division by zero raises; Python inserts the raw count into the dict just
before raising, but the raised error discards the dict, so testing the total
first is observationally equal). -/
def ratioLoop (total : Nat) (acc : List (String × FeatVal)) :
    List (String × Nat) → Except PipeErr (List (String × FeatVal))
  | [] => .ok acc
  | kv :: rest =>
    if kv.1 = total_key then ratioLoop total acc rest
    else if total = 0 then .error .zeroDivisionError
    else ratioLoop total
      (dictInsert (dictInsert acc (escape_sql_key kv.1) (.int (kv.2 : Int)))
        (escape_sql_key ("ratio_" ++ kv.1)) (.rat ((kv.2 : ℚ) / (total : ℚ)))) rest

/-- `instcounts2ratios` (preprocess.py lines 214-235): empty input gives an
empty dict; otherwise `counts[total_key]` is looked up (raising `KeyError` if
absent), copied under its escaped name, and every other key contributes its
raw count and its ratio to the total. -/
def instcounts2ratios (counts : List (String × Nat)) :
    Except PipeErr (List (String × FeatVal)) :=
  if counts.length = 0 then .ok []
  else
    match List.lookup total_key counts with
    | none => .error (.keyError total_key)
    | some total =>
        ratioLoop total (dictInsert [] (escape_sql_key total_key) (.int total)) counts

/-! ## verify_bytecode_features -/

/-- The hardcoded minimum of `verify_bytecode_features`. -/
def min_num_instructions : Int := 0

/-- `bc_features['instructions_of_all_types']` with the `KeyError` handler
substituting 0. -/
def featNum (fs : List (String × FeatVal)) : ℚ :=
  match List.lookup "instructions_of_all_types" fs with
  | some v => v.toRat
  | none => 0

/-- `verify_bytecode_features` (preprocess.py lines 317-329): raise
`InstructionCountException` iff the total instruction count is strictly below
the minimum.  (The Python message interpolates the two numbers; the message
text is irrelevant to every property proved here and is kept constant.) -/
def verify_bytecode_features (fs : List (String × FeatVal)) : Except PipeErr Unit :=
  if featNum fs < (min_num_instructions : ℚ) then
    .error (.instructionCountException "Code contains too few instructions")
  else .ok ()

/-! ## Toolchain stages -/

/-- `compile_cl_bytecode` (preprocess.py lines 166-176): clang `-emit-llvm`;
nonzero exit raises `ClangException(stderr)`, else the bytecode is stdout. -/
def compile_cl_bytecode (env : ToolEnv) (src : String) : Except PipeErr String :=
  if (env.clang_emit src).exitCode ≠ 0 then .error (.clangException (env.clang_emit src).stderr)
  else .ok (env.clang_emit src).stdout

/-- `bytecode_features` (preprocess.py lines 247-261): run `opt -analyze
-stats -instcount` with stderr piped into stdout; nonzero exit raises
`OptException(stdout)`, else parse the report and derive the ratios. -/
def bytecode_features (env : ToolEnv) (bc : String) :
    Except PipeErr (List (String × FeatVal)) :=
  if (env.opt_instcount bc).exitCode ≠ 0 then
    .error (.optException (env.opt_instcount bc).stdout)
  else instcounts2ratios (parse_instcounts (env.opt_instcount bc).stdout)

/-- The marker line ending clang's standard-include expansion. -/
def stdin_marker : String := "# 1 \"<stdin>\" 2"

/-- Python `line.startswith('#')`. -/
def startsWithHash : List Char → Bool
  | [] => false
  | c :: _ => c = '#'

/-- The include-stripping loop of `compiler_preprocess_cl`: find the marker
line (Python's `for`/`break` leaves the loop variable at the last index when
no line matches), keep everything after it, and strip the result. -/
def strip_includes (s : String) : String :=
  let lines := splitOnChar '\n' s.toList
  let i := (lines.findIdx? (fun l => l = stdin_marker.toList)).getD (lines.length - 1)
  String.mk (pyStripChars (List.intercalate ['\n'] (lines.drop (i + 1))))

/-- Drop the remaining preprocessor lines (those beginning with `#`). -/
def strip_hash_lines (s : String) : String :=
  String.mk (List.intercalate ['\n']
    ((splitOnChar '\n' s.toList).filter (fun l => ¬ startsWithHash l)))

/-- `compiler_preprocess_cl` (preprocess.py lines 109-133): clang `-E`;
nonzero exit raises `ClangException(stderr)`, else strip the include
expansion and the preprocessor lines from stdout. -/
def compiler_preprocess_cl (env : ToolEnv) (src : String) : Except PipeErr String :=
  if (env.clang_cpp src).exitCode ≠ 0 then .error (.clangException (env.clang_cpp src).stderr)
  else .ok (strip_hash_lines (strip_includes (env.clang_cpp src).stdout))

/-- The `__attribute__` token. -/
def stripAttrToken : List Char := "__attribute__".toList

/-- Modelled from the spec: `clutil.strip_attributes` is not part of `src/`
(it lives in clgen's `clutil` module); per the spec it strips
"language-specific attribute annotations" — `__attribute__` qualifiers — from
the rewriter output.  Modelled as deleting each occurrence of
`__attribute__` together with the balanced parenthesised group following it.
The fuel argument exceeds the input length, so it never runs out; `none`
state is ordinary copying, `some d` skips a parenthesised group at depth
`d` (with `some 0` right after the token, awaiting the opening paren). -/
def stripAttrsAux : Nat → Option Nat → List Char → List Char
  | 0, _, l => l
  | _ + 1, none, [] => []
  | fuel + 1, none, c :: r =>
    if stripAttrToken.isPrefixOf (c :: r) then
      stripAttrsAux fuel (some 0) ((c :: r).drop stripAttrToken.length)
    else c :: stripAttrsAux fuel none r
  | _ + 1, some _, [] => []
  | fuel + 1, some d, c :: r =>
    if d = 0 then
      if c = '(' then stripAttrsAux fuel (some 1) r
      else c :: stripAttrsAux fuel none r
    else
      if c = '(' then stripAttrsAux fuel (some (d + 1)) r
      else if c = ')' then
        if d = 1 then stripAttrsAux fuel none r else stripAttrsAux fuel (some (d - 1)) r
      else stripAttrsAux fuel (some d) r

/-- Modelled from the spec (see `stripAttrsAux`): remove `__attribute__`
qualifiers. -/
def strip_attributes (s : String) : String :=
  String.mk (stripAttrsAux (s.toList.length + 1) none s.toList)

/-- `rewrite_cl` (preprocess.py lines 136-163): run the rewriter on a temp
file holding `src`; exit code 204 (`EUGLY_CODE`, "nothing to rewrite") raises
`RewriterException(src)`; every other exit code — zero or not — is ignored
and stdout, with `__attribute__` qualifiers stripped, is the result. -/
def rewrite_cl (env : ToolEnv) (src : String) : Except PipeErr String :=
  if (env.rewriter src).exitCode = 204 then .error (.rewriterException src)
  else .ok (strip_attributes (env.rewriter src).stdout)

/-- `clangformat_ocl` (preprocess.py lines 281-292): clang-format with the
fixed style config; stderr output alone is only logged; nonzero exit raises
`ClangFormatException(stderr)`, else the result is stdout. -/
def clangformat_ocl (env : ToolEnv) (src : String) : Except PipeErr String :=
  if (env.clang_format src).exitCode ≠ 0 then
    .error (.clangFormatException (env.clang_format src).stderr)
  else .ok (env.clang_format src).stdout

/-- `sanitize_prototype` (preprocess.py lines 332-345): if `src` contains a
`\x7b`, re-join the whitespace-split words of the text up to and including
the first `\x7b` with single spaces and keep the remainder unchanged;
if there is none (`ValueError`), return `src` unchanged. -/
def sanitize_prototype (src : String) : String :=
  match src.toList.findIdx? (· = '\x7b') with
  | some i =>
      String.mk (pyJoinWords (pyWords (src.toList.take (i + 1))) ++ src.toList.drop (i + 1))
  | none => src

/-- `preprocess` (preprocess.py lines 354-382): the seven-stage pipeline;
each stage's exception aborts the rest (sequential `raise` propagation). -/
def preprocess (env : ToolEnv) (src : String) : Except PipeErr String :=
  match compile_cl_bytecode env src with
  | .error e => .error e
  | .ok bc =>
  match bytecode_features env bc with
  | .error e => .error e
  | .ok bc_features =>
  match verify_bytecode_features bc_features with
  | .error e => .error e
  | .ok _ =>
  match compiler_preprocess_cl env src with
  | .error e => .error e
  | .ok s1 =>
  match rewrite_cl env s1 with
  | .error e => .error e
  | .ok s2 =>
  match clangformat_ocl env s2 with
  | .error e => .error e
  | .ok s3 => .ok (sanitize_prototype (pyStrip s3))

/-! ## The batch worker's per-sample transformation -/

/-- One line of a worker's JSON sink: `[id, status, contents]`.  The same
shape is one row of the `PreprocessedFiles` table. -/
structure SinkRec : Type where
  id : String
  status : Nat
  contents : String
deriving DecidableEq, Repr

/-- The per-sample body of `_preprocess_db_worker` (preprocess.py lines
466-481): run `preprocess`; `BadCodeException` gives status 1 and
`UglyCodeException` status 2, both with `str(e)` as contents; success gives
status 0 with the preprocessed source; any other exception propagates out of
the worker. -/
def transform_sample (env : ToolEnv) (id contents : String) :
    Except PipeErr SinkRec :=
  match preprocess env contents with
  | .ok s => .ok ⟨id, 0, s⟩
  | .error e =>
    if e.isBadCode then .ok ⟨id, 1, e.pymsg⟩
    else if e.isUglyCode then .ok ⟨id, 2, e.pymsg⟩
    else .error e

/-! ## Checksum / modification tracking -/

/-- Modelled from the spec: `hashlib.md5` is external to the repository; the
spec requires only "a per-column content hash aggregate".  Modelled as a
deterministic 64-bit polynomial rolling hash of the byte stream, rendered in
hex — like md5, a function of the concatenated update stream. -/
def md5_hex (s : String) : String :=
  String.mk (Nat.toDigits 16
    ((s.toList.map Char.toNat).foldl (fun h b => (h * 33 + b) % 2 ^ 64) 5381))

/-- `md5sum_aggregator` (preprocess.py lines 385-393) as executed by the
store on `SELECT MD5SUM(id) FROM ContentFiles`: each row's id is fed through
`str` and `update`, so the digest is a function of the concatenation of the
id strings in table order. -/
def md5sum_aggregate (ids : List String) : String :=
  md5_hex (String.join ids)

/-- `is_modified` (preprocess.py lines 418-429): compare the stored
`preprocessed_checksum` (absent on first run) with the current aggregate;
`none` plays Python's falsy `False` ("unchanged"), `some checksum` is the
truthy new fingerprint (a hex digest is a nonempty, hence truthy, string). -/
def is_modified (cached : Option String) (ids : List String) : Option String :=
  if cached = some (md5sum_aggregate ids) then none else some (md5sum_aggregate ids)

/-! ## Partitioner -/

/-- The worker-count / rows-per-worker computation of
`preprocess_contentfiles` (preprocess.py lines 512-513):
`num_workers = min(num_contentfiles, max_num_workers)` and
`files_per_worker = math.ceil(num_contentfiles / num_workers)`, which raises
`ZeroDivisionError` when `num_workers` is 0.  (`math.ceil` of the float
quotient equals the exact ceiling for every realistic table size.) -/
def preprocess_contentfiles_fpw (num_contentfiles max_num_workers : Nat) :
    Except PipeErr Nat :=
  if min num_contentfiles max_num_workers = 0 then .error .zeroDivisionError
  else .ok ((num_contentfiles + min num_contentfiles max_num_workers - 1) /
    min num_contentfiles max_num_workers)

/-- Job `i`'s `db_index_range` (preprocess.py lines 521-522):
`(i * files_per_worker, i * files_per_worker + files_per_worker)`. -/
def db_index_range (files_per_worker i : Nat) : Nat × Nat :=
  (i * files_per_worker, i * files_per_worker + files_per_worker)

/-- The list of job index ranges built by `preprocess_contentfiles`
(lines 519-524), one per worker. -/
def preprocess_jobs (n w : Nat) : Except PipeErr (List (Nat × Nat)) :=
  match preprocess_contentfiles_fpw n w with
  | .error e => .error e
  | .ok fpw => .ok ((List.range (min n w)).map (db_index_range fpw))

/-! ## Result merger -/

/-- `INSERT OR REPLACE INTO PreprocessedFiles VALUES(?,?,?)` keyed by `id`:
the conflicting row (if any) is deleted and the new row inserted. -/
def upsertPF (store : List SinkRec) (r : SinkRec) : List SinkRec :=
  (store.filter (fun s => s.id ≠ r.id)) ++ [r]

/-- `_finalize` (preprocess.py lines 488-505): for every sink file in the
cache directory, upsert each of its records into `PreprocessedFiles`. -/
def finalize_merge (store : List SinkRec) (sinks : List (List SinkRec)) :
    List SinkRec :=
  sinks.foldl (fun st file => file.foldl upsertPF st) store

/-- The `try`/`except` around the pool dispatch in `preprocess_contentfiles`
(lines 527-535): given the sink files on disk and the pool outcome, the
merger runs unconditionally; a pool exception is re-raised afterwards. -/
def preprocess_contentfiles_model (store : List SinkRec)
    (sinks : List (List SinkRec)) (poolExn : Option PipeErr) :
    List SinkRec × Option PipeErr :=
  match poolExn with
  | some e => (finalize_merge store sinks, some e)
  | none => (finalize_merge store sinks, none)

/-- `preprocess_db` (preprocess.py lines 604-624) up to the point decided by
the partition arithmetic: if `is_modified` is falsy return `False`; else run
`preprocess_contentfiles`, whose first fallible step is the job-range
computation (the pool dispatch and merge that follow are not modelled
here). -/
def preprocess_db_model (cached : Option String) (ids : List String)
    (max_num_workers : Nat) : Except PipeErr Bool :=
  match is_modified cached ids with
  | none => .ok false
  | some _ =>
    match preprocess_jobs ids.length max_num_workers with
    | .error e => .error e
    | .ok _ => .ok true

/-! ## Classification of escaping exceptions -/

/-- An exception that is neither a `BadCodeException` nor an
`UglyCodeException` is an `LlvmException`, a `KeyError` or a
`ZeroDivisionError`. -/
lemma escape_classes (e : PipeErr) (hb : e.isBadCode = false)
    (hu : e.isUglyCode = false) :
    e.isLlvmException = true ∨ (∃ k, e = .keyError k) ∨ e = .zeroDivisionError := by
  cases e <;> simp_all [PipeErr.isBadCode, PipeErr.isUglyCode, PipeErr.isLlvmException]

/-- C1 (amended): the per-sample transformation converts `BadCodeException`
and `UglyCodeException` failures into a single `ClassifiedResult` with status
in 0-2, but an `LlvmException` (`OptException` / `ClangFormatException`) — and
a raw `KeyError` or `ZeroDivisionError` from the feature stage — is not
caught and escapes the transformer boundary as an exception to the worker. -/
theorem transform_totality_amended (env : ToolEnv) (id contents : String) :
    (∀ rec, transform_sample env id contents = .ok rec →
      rec.status = 0 ∨ rec.status = 1 ∨ rec.status = 2)
  ∧ (∀ e, transform_sample env id contents = .error e →
      e.isLlvmException = true ∨ (∃ k, e = .keyError k) ∨ e = .zeroDivisionError) := by
  constructor
  · intro rec h
    unfold transform_sample at h
    cases hp : preprocess env contents with
    | ok s =>
      rw [hp] at h; cases h; left; rfl
    | error e₂ =>
      rw [hp] at h
      by_cases hb : e₂.isBadCode
      · simp only [hb, if_true] at h; cases h; right; left; rfl
      · by_cases hu : e₂.isUglyCode
        · simp only [hb, hu, if_true, if_false, Bool.false_eq_true] at h
          cases h; right; right; rfl
        · simp only [hb, hu, if_false, Bool.false_eq_true] at h
          cases h
  · intro e h
    unfold transform_sample at h
    cases hp : preprocess env contents with
    | ok s => rw [hp] at h; cases h
    | error e₂ =>
      rw [hp] at h
      by_cases hb : e₂.isBadCode
      · simp only [hb, if_true] at h; cases h
      · by_cases hu : e₂.isUglyCode
        · simp only [hb, hu, if_true, if_false, Bool.false_eq_true] at h
          cases h
        · simp only [hb, hu, if_false, Bool.false_eq_true] at h
          cases h
          exact escape_classes _ (by simpa using hb) (by simpa using hu)

/-- A toolchain in which clang succeeds and opt exits nonzero. -/
def envOptFails : ToolEnv where
  clang_emit := fun _ => ⟨0, "bc", ""⟩
  opt_instcount := fun _ => ⟨1, "opt diagnostics", ""⟩
  clang_cpp := fun _ => ⟨0, "", ""⟩
  rewriter := fun _ => ⟨0, "", ""⟩
  clang_format := fun _ => ⟨0, "", ""⟩

/-- C1 (counterexample): with the analyzer exiting nonzero, the per-sample
transformation does not return a `ClassifiedResult` — the `OptException`
escapes as an exception, contrary to the claim's "never escaping". -/
theorem transform_totality_cex :
    transform_sample envOptFails "sample-id" "kernel void A()" =
      .error (.optException "opt diagnostics") := rfl

/-- Witness for `transform_totality_amended` at a concrete environment. -/
theorem transform_totality_amended_w :
    (PipeErr.optException "opt diagnostics").isLlvmException = true
      ∨ (∃ k, PipeErr.optException "opt diagnostics" = .keyError k)
      ∨ PipeErr.optException "opt diagnostics" = .zeroDivisionError :=
  (transform_totality_amended envOptFails "sample-id" "kernel void A()").2 _ rfl

/-! ## Non-negativity of extracted features -/

/-- `dictInsert` preserves a predicate on the stored values. -/
lemma dictInsert_forall {α : Type} (P : α → Prop) (d : List (String × α))
    (k : String) (v : α) (hd : ∀ p ∈ d, P p.2) (hv : P v) :
    ∀ p ∈ dictInsert d k v, P p.2 := by
  intro p hp
  unfold dictInsert at hp
  split at hp
  · rcases List.mem_map.1 hp with ⟨q, hq, hfq⟩
    by_cases hqk : q.1 = k
    · simp only [hqk, if_true] at hfq
      rw [← hfq]; exact hv
    · simp only [hqk, if_false] at hfq
      rw [← hfq]; exact hd q hq
  · rcases List.mem_append.1 hp with h | h
    · exact hd p h
    · simp only [List.mem_singleton] at h
      rw [h]; exact hv

/-- Every value produced by the ratio loop is non-negative, provided the
accumulator's values are. -/
lemma ratioLoop_nonneg (t : Nat) :
    ∀ (l : List (String × Nat)) (acc fs : List (String × FeatVal)),
      ratioLoop t acc l = .ok fs → (∀ p ∈ acc, 0 ≤ p.2.toRat) →
      ∀ p ∈ fs, 0 ≤ p.2.toRat := by
  intro l
  induction l with
  | nil =>
    intro acc fs h hacc
    unfold ratioLoop at h
    cases h
    exact hacc
  | cons kv rest ih =>
    intro acc fs h hacc
    unfold ratioLoop at h
    by_cases hk : kv.1 = total_key
    · rw [if_pos hk] at h
      exact ih _ _ h hacc
    · rw [if_neg hk] at h
      by_cases ht : t = 0
      · rw [if_pos ht] at h; cases h
      · rw [if_neg ht] at h
        refine ih _ _ h ?_
        refine dictInsert_forall (fun v : FeatVal => 0 ≤ v.toRat) _ _ _
          (dictInsert_forall (fun v : FeatVal => 0 ≤ v.toRat) _ _ _ hacc ?_) ?_
        · show (0 : ℚ) ≤ (FeatVal.int (kv.2 : Int)).toRat
          simp [FeatVal.toRat]
        · show (0 : ℚ) ≤ (FeatVal.rat ((kv.2 : ℚ) / (t : ℚ))).toRat
          simp only [FeatVal.toRat]
          exact div_nonneg (Nat.cast_nonneg _) (Nat.cast_nonneg _)

/-- Every value of a successfully derived ratio dict is non-negative. -/
lemma instcounts2ratios_nonneg (counts : List (String × Nat))
    (fs : List (String × FeatVal)) (h : instcounts2ratios counts = .ok fs) :
    ∀ p ∈ fs, 0 ≤ p.2.toRat := by
  unfold instcounts2ratios at h
  split at h
  · cases h; intro p hp; exact absurd hp (List.not_mem_nil p)
  · cases hl : List.lookup total_key counts with
    | none => rw [hl] at h; cases h
    | some t =>
      rw [hl] at h
      refine ratioLoop_nonneg t counts _ fs h ?_
      refine dictInsert_forall (fun v : FeatVal => 0 ≤ v.toRat) _ _ _
        (by intro p hp; exact absurd hp (List.not_mem_nil p)) ?_
      show (0 : ℚ) ≤ (FeatVal.int (t : Int)).toRat
      simp [FeatVal.toRat]

/-- A successful ratio derivation always passes `verify_bytecode_features`:
all counts and ratios are non-negative and the minimum is 0. -/
lemma verify_ok_of_ratios (counts : List (String × Nat))
    (fs : List (String × FeatVal)) (h : instcounts2ratios counts = .ok fs) :
    verify_bytecode_features fs = .ok () := by
  have hnn := instcounts2ratios_nonneg counts fs h
  unfold verify_bytecode_features
  rw [if_neg]
  rw [not_lt]
  have h0 : (0 : ℚ) ≤ featNum fs := by
    unfold featNum
    cases hl : List.lookup "instructions_of_all_types" fs with
    | none => exact le_refl 0
    | some v =>
      rcases List.lookup_eq_some_iff.1 hl with ⟨l₁, l₂, heq, -⟩
      refine hnn ("instructions_of_all_types", v) ?_
      rw [heq]
      exact List.mem_append_right _ (List.mem_cons_self _ _)
  simpa [min_num_instructions] using h0

/-- A successful `bytecode_features` output always passes verification. -/
lemma verify_ok_of_features (env : ToolEnv) (bc : String)
    (fs : List (String × FeatVal)) (h : bytecode_features env bc = .ok fs) :
    verify_bytecode_features fs = .ok () := by
  unfold bytecode_features at h
  split at h
  · cases h
  · exact verify_ok_of_ratios _ _ h

/-- C8: the acceptance predicate rejects exactly when the total instruction
count is strictly below `min_num_instructions`, whose value is 0; and since
every feature set the pipeline derives has non-negative values (a missing
total key counts as 0), the rejection path is unreachable: verification
accepts every derived feature set. -/
theorem verify_permissive :
    min_num_instructions = 0
  ∧ (∀ fs : List (String × FeatVal),
      (∃ m, verify_bytecode_features fs = .error (.instructionCountException m)) ↔
        featNum fs < (min_num_instructions : ℚ))
  ∧ (∀ counts fs, instcounts2ratios counts = .ok fs →
      verify_bytecode_features fs = .ok ()) := by
  refine ⟨rfl, ?_, fun counts fs h => verify_ok_of_ratios counts fs h⟩
  intro fs
  unfold verify_bytecode_features
  by_cases hlt : featNum fs < (min_num_instructions : ℚ)
  · simp [hlt]
  · simp [hlt]

/-- Witness for `verify_permissive` at a concrete feature set. -/
theorem verify_permissive_w :
    verify_bytecode_features [("instructions_of_all_types", FeatVal.int 5)] = .ok () :=
  verify_permissive.2.2 [(total_key, 5)]
    [("instructions_of_all_types", FeatVal.int 5)] (by rfl)

/-! ## C2: analyzer / formatter failures -/

/-- C2 (amended): a nonzero analyzer exit raises `OptException`, and a
nonzero formatter exit (with all earlier stages succeeding) raises
`ClangFormatException`; both are `LlvmException`s rather than
`BadCodeException`s, so the per-sample transformation ends with the
exception escaping to the worker — the sample is not stored as a status-1
`ClassifiedResult`. -/
theorem llvm_failures_escape (env : ToolEnv) (id src : String) :
    ((env.clang_emit src).exitCode = 0 →
      (env.opt_instcount (env.clang_emit src).stdout).exitCode ≠ 0 →
      transform_sample env id src =
        .error (.optException (env.opt_instcount (env.clang_emit src).stdout).stdout))
  ∧ (∀ fs s1,
      (env.clang_emit src).exitCode = 0 →
      bytecode_features env (env.clang_emit src).stdout = .ok fs →
      compiler_preprocess_cl env src = .ok s1 →
      (env.rewriter s1).exitCode ≠ 204 →
      (env.clang_format (strip_attributes (env.rewriter s1).stdout)).exitCode ≠ 0 →
      transform_sample env id src =
        .error (.clangFormatException
          (env.clang_format (strip_attributes (env.rewriter s1).stdout)).stderr)) := by
  constructor
  · intro h0 h1
    have hc : compile_cl_bytecode env src = .ok (env.clang_emit src).stdout := by
      unfold compile_cl_bytecode
      rw [if_neg (by simp [h0])]
    have hb : bytecode_features env (env.clang_emit src).stdout =
        .error (.optException (env.opt_instcount (env.clang_emit src).stdout).stdout) := by
      unfold bytecode_features
      rw [if_pos h1]
    have hp : preprocess env src =
        .error (.optException (env.opt_instcount (env.clang_emit src).stdout).stdout) := by
      simp only [preprocess, hc, hb]
    simp [transform_sample, hp, PipeErr.isBadCode, PipeErr.isUglyCode]
  · intro fs s1 h0 hf hcpp h204 hfmt
    have hc : compile_cl_bytecode env src = .ok (env.clang_emit src).stdout := by
      unfold compile_cl_bytecode
      rw [if_neg (by simp [h0])]
    have hv : verify_bytecode_features fs = .ok () :=
      verify_ok_of_features env _ fs hf
    have hrw : rewrite_cl env s1 = .ok (strip_attributes (env.rewriter s1).stdout) := by
      unfold rewrite_cl
      rw [if_neg h204]
    have hfm : clangformat_ocl env (strip_attributes (env.rewriter s1).stdout) =
        .error (.clangFormatException
          (env.clang_format (strip_attributes (env.rewriter s1).stdout)).stderr) := by
      unfold clangformat_ocl
      rw [if_pos hfmt]
    have hp : preprocess env src =
        .error (.clangFormatException
          (env.clang_format (strip_attributes (env.rewriter s1).stdout)).stderr) := by
      simp only [preprocess, hc, hf, hv, hcpp, hrw, hfm]
    simp [transform_sample, hp, PipeErr.isBadCode, PipeErr.isUglyCode]

/-- A toolchain in which every stage succeeds until clang-format, which
exits nonzero. -/
def envFmtFails : ToolEnv where
  clang_emit := fun _ => ⟨0, "bitcode", ""⟩
  opt_instcount := fun _ => ⟨0, "5 instcount - Number of instructions (of all types)", ""⟩
  clang_cpp := fun _ => ⟨0, "", ""⟩
  rewriter := fun _ => ⟨0, "", ""⟩
  clang_format := fun _ => ⟨1, "", "fmt fail"⟩

/-- C2 (counterexample): with the formatter exiting nonzero, the sample is
not stored with status 1 — the `ClangFormatException` escapes as an
exception. -/
theorem llvm_failures_escape_cex :
    transform_sample envFmtFails "sample-id" "kernel void B()" =
      .error (.clangFormatException "fmt fail") := rfl

/-- A toolchain in which clang succeeds and opt exits with code 2. -/
def envOptCrash : ToolEnv where
  clang_emit := fun _ => ⟨0, "bc2", ""⟩
  opt_instcount := fun _ => ⟨2, "Stack dump", ""⟩
  clang_cpp := fun _ => ⟨0, "", ""⟩
  rewriter := fun _ => ⟨0, "", ""⟩
  clang_format := fun _ => ⟨0, "", ""⟩

/-- Witness for `llvm_failures_escape` at a concrete environment. -/
theorem llvm_failures_escape_w :
    transform_sample envOptCrash "w-id" "kernel void C()" =
      .error (.optException "Stack dump") :=
  (llvm_failures_escape envOptCrash "w-id" "kernel void C()").1 rfl (by decide)

/-! ## C6: the rewriter's special exit code -/

/-- C6: `rewrite_cl` raises `RewriterException` — an `UglyCodeException`,
hence status 2 at the transformer — exactly when the rewriter exits with
code 204, regardless of its stdout; any other exit code, zero or nonzero,
continues with the rewriter's stdout stripped of `__attribute__`
annotations. -/
theorem rewrite_exit204 (env : ToolEnv) (src : String) :
    ((env.rewriter src).exitCode = 204 →
      rewrite_cl env src = .error (.rewriterException src)
        ∧ (PipeErr.rewriterException src).isUglyCode = true)
  ∧ ((env.rewriter src).exitCode ≠ 204 →
      rewrite_cl env src = .ok (strip_attributes (env.rewriter src).stdout))
  ∧ (∀ id sample fs s1,
      (env.clang_emit sample).exitCode = 0 →
      bytecode_features env (env.clang_emit sample).stdout = .ok fs →
      compiler_preprocess_cl env sample = .ok s1 →
      (env.rewriter s1).exitCode = 204 →
      transform_sample env id sample = .ok ⟨id, 2, s1⟩) := by
  refine ⟨?_, ?_, ?_⟩
  · intro h
    exact ⟨by unfold rewrite_cl; rw [if_pos h], rfl⟩
  · intro h
    unfold rewrite_cl
    rw [if_neg h]
  · intro id sample fs s1 h0 hf hcpp h204
    have hc : compile_cl_bytecode env sample = .ok (env.clang_emit sample).stdout := by
      unfold compile_cl_bytecode
      rw [if_neg (by simp [h0])]
    have hv := verify_ok_of_features env _ fs hf
    have hrw : rewrite_cl env s1 = .error (.rewriterException s1) := by
      unfold rewrite_cl
      rw [if_pos h204]
    have hp : preprocess env sample = .error (.rewriterException s1) := by
      simp only [preprocess, hc, hf, hv, hcpp, hrw]
    simp [transform_sample, hp, PipeErr.isBadCode, PipeErr.isUglyCode, PipeErr.pymsg]

/-- A toolchain that succeeds up to the rewriter, which exits 204. -/
def envRewriter204 : ToolEnv where
  clang_emit := fun _ => ⟨0, "bc3", ""⟩
  opt_instcount := fun _ => ⟨0, "7 instcount - Number of instructions (of all types)", ""⟩
  clang_cpp := fun _ => ⟨0, "cpp output", ""⟩
  rewriter := fun _ => ⟨204, "ignored stdout", ""⟩
  clang_format := fun _ => ⟨0, "", ""⟩

/-- Witness for `rewrite_exit204` at a concrete environment (the cpp stage
reduces its single non-marker line to the empty source, which the
`RewriterException` then carries as the sample's stored contents). -/
theorem rewrite_exit204_w :
    transform_sample envRewriter204 "w2-id" "kernel void D()" =
      .ok ⟨"w2-id", 2, ""⟩ :=
  (rewrite_exit204 envRewriter204 "").2.2 "w2-id" "kernel void D()"
    [("instructions_of_all_types", FeatVal.int 7)] "" rfl rfl rfl rfl

/-! ## C10: the empty-table partition arithmetic -/

/-- C10: with zero content files, `num_workers = min(0, w) = 0` and the
rows-per-worker division raises `ZeroDivisionError`; hence whenever the
fingerprint check reports the (empty) store as modified — e.g. on a first
run, when no checksum is cached — `preprocess_db` fails with the unhandled
arithmetic error instead of completing as a no-op. -/
theorem empty_store_div_zero :
    (∀ w, preprocess_jobs 0 w = .error .zeroDivisionError)
  ∧ (∀ cached w, is_modified cached [] ≠ none →
      preprocess_db_model cached [] w = .error .zeroDivisionError) := by
  constructor
  · intro w
    simp [preprocess_jobs, preprocess_contentfiles_fpw]
  · intro cached w h
    cases hm : is_modified cached [] with
    | none => exact absurd hm h
    | some c =>
      have hj : preprocess_jobs (List.length ([] : List String)) w =
          .error .zeroDivisionError := by
        simp [preprocess_jobs, preprocess_contentfiles_fpw]
      simp only [preprocess_db_model, hm, hj]

/-- Witness for `empty_store_div_zero` on a first run (no cached checksum). -/
theorem empty_store_div_zero_w :
    preprocess_db_model none [] 4 = .error .zeroDivisionError :=
  empty_store_div_zero.2 none 4 (by decide)

/-! ## C3: the fingerprint aggregate -/

/-- C3 (counterexample): two different id collections — `["ab", "c"]` and
`["a", "bc"]` — concatenate to the same update stream `"abc"`, so the
aggregate fingerprint is unchanged although the id collection changed. -/
theorem fingerprint_concat_cex :
    md5sum_aggregate ["ab", "c"] = md5sum_aggregate ["a", "bc"]
  ∧ (["ab", "c"] : Multiset String) ≠ (["a", "bc"] : Multiset String) := by
  exact ⟨rfl, by decide⟩

/-- C3 (amended): the fingerprint is a function of the concatenation of the
id strings in table order — equal concatenations (in particular an unchanged
id sequence) give equal fingerprints, so the fingerprint need not change
when the id collection changes. -/
theorem fingerprint_concat (ids1 ids2 : List String)
    (h : String.join ids1 = String.join ids2) :
    md5sum_aggregate ids1 = md5sum_aggregate ids2 := by
  unfold md5sum_aggregate
  rw [h]

/-- Witness for `fingerprint_concat` at concrete id lists. -/
theorem fingerprint_concat_w :
    md5sum_aggregate ["x", "yz"] = md5sum_aggregate ["xy", "z"] :=
  fingerprint_concat ["x", "yz"] ["xy", "z"] rfl

/-! ## C4: merge runs before the error propagates -/

/-- Filtering by a stronger predicate ignores a prior weaker filter. -/
lemma filter_filter_of_imp {p q : SinkRec → Bool} (l : List SinkRec)
    (h : ∀ s, p s = true → q s = true) : (l.filter q).filter p = l.filter p := by
  induction l with
  | nil => rfl
  | cons a l ih =>
    by_cases hq : q a = true
    · by_cases hp : p a = true
      · simp [hq, hp, ih]
      · simp [hq, hp, ih]
    · have hp : ¬ p a = true := fun hpa => hq (h a hpa)
      simp [hq, hp, ih]

/-- Upserting a record with a different id leaves the rows of `idv`
untouched. -/
lemma filter_upsertPF_other (store : List SinkRec) (r : SinkRec) (idv : String)
    (h : r.id ≠ idv) :
    (upsertPF store r).filter (fun s => s.id = idv) =
      store.filter (fun s => s.id = idv) := by
  unfold upsertPF
  rw [List.filter_append]
  have h1 : ([r].filter (fun s => s.id = idv)) = [] := by simp [h]
  rw [h1, List.append_nil]
  refine filter_filter_of_imp store ?_
  intro s hs
  simp only [decide_eq_true_eq] at hs
  simp only [hs, decide_eq_true_eq]
  exact fun hir => h hir.symm

/-- Upserting a record with id `idv` makes it the unique row of `idv`. -/
lemma filter_upsertPF_same (store : List SinkRec) (r : SinkRec) (idv : String)
    (h : r.id = idv) :
    (upsertPF store r).filter (fun s => s.id = idv) = [r] := by
  unfold upsertPF
  rw [List.filter_append]
  have h2 : (store.filter (fun s => s.id ≠ r.id)).filter (fun s => s.id = idv) = [] := by
    rw [List.filter_eq_nil_iff]
    intro s hs
    have hq := (List.mem_filter.1 hs).2
    simp only [decide_eq_true_eq, ← h] at hq ⊢
    simpa using hq
  rw [h2, List.nil_append]
  simp [h]

/-- After folding a record stream through `INSERT OR REPLACE`, the rows with
a given id are: the last stream record with that id, if the stream mentions
it, else the store's original rows for it. -/
lemma foldl_upsert_filter (idv : String) :
    ∀ (recs store : List SinkRec),
      (recs.foldl upsertPF store).filter (fun s => s.id = idv) =
        match (recs.filter (fun s => s.id = idv)).getLast? with
        | none => store.filter (fun s => s.id = idv)
        | some lr => [lr] := by
  intro recs
  induction recs with
  | nil => intro store; rfl
  | cons r rs ih =>
    intro store
    rw [List.foldl_cons, ih (upsertPF store r)]
    by_cases hr : r.id = idv
    · rw [List.filter_cons_of_pos (by simp [hr])]
      cases hc : rs.filter (fun s => s.id = idv) with
      | nil =>
        simp [filter_upsertPF_same store r idv hr]
      | cons x xs =>
        have hx : (x :: xs).getLast?.isSome := by simp
        obtain ⟨lr, hlr⟩ := Option.isSome_iff_exists.1 hx
        rw [List.getLast?_cons_cons, hlr]
    · rw [List.filter_cons_of_neg (by simp [hr])]
      cases hc : rs.filter (fun s => s.id = idv) with
      | nil => simp [filter_upsertPF_other store r idv hr]
      | cons x xs =>
        have hx : (x :: xs).getLast?.isSome := by simp
        obtain ⟨lr, hlr⟩ := Option.isSome_iff_exists.1 hx
        rw [hlr]

/-- `_finalize`'s nested loop equals one fold over the concatenated sink
records. -/
lemma finalize_merge_flatten (store : List SinkRec) (sinks : List (List SinkRec)) :
    finalize_merge store sinks = (sinks.flatten).foldl upsertPF store := by
  unfold finalize_merge
  rw [List.foldl_flatten]

/-- C4: if the pool raises, the merger still runs before the exception is
re-raised: the run reports the original exception, and every record written
to any sink is upserted — the store's rows for that record's id reduce to
the last sink record carrying the id (replace-on-conflict). -/
theorem merge_runs_on_failure (store : List SinkRec) (sinks : List (List SinkRec))
    (e : PipeErr) :
    (preprocess_contentfiles_model store sinks (some e)).2 = some e
  ∧ ∀ r ∈ sinks.flatten, ∃ lr,
      (sinks.flatten.filter (fun s => s.id = r.id)).getLast? = some lr
    ∧ (preprocess_contentfiles_model store sinks (some e)).1.filter
        (fun s => s.id = r.id) = [lr] := by
  constructor
  · rfl
  · intro r hr
    have hmem : r ∈ sinks.flatten.filter (fun s => s.id = r.id) :=
      List.mem_filter.2 ⟨hr, by simp⟩
    have hne : sinks.flatten.filter (fun s => s.id = r.id) ≠ [] := by
      intro hnil
      rw [hnil] at hmem
      exact absurd hmem (List.not_mem_nil r)
    obtain ⟨lr, hlr⟩ := Option.isSome_iff_exists.1 (List.getLast?_isSome.2 hne)
    refine ⟨lr, hlr, ?_⟩
    have h1 : (preprocess_contentfiles_model store sinks (some e)).1 =
        finalize_merge store sinks := rfl
    rw [h1, finalize_merge_flatten, foldl_upsert_filter, hlr]

/-- Witness for `merge_runs_on_failure` at a concrete failed run: the error
is re-raised and the completed record for id "a" replaced the old row. -/
theorem merge_runs_on_failure_w :
    (preprocess_contentfiles_model [⟨"a", 0, "old"⟩]
        [[⟨"a", 1, "na"⟩], [⟨"b", 2, "nb"⟩]] (some .zeroDivisionError)).2 =
      some .zeroDivisionError
  ∧ ∃ lr,
      (([[⟨"a", 1, "na"⟩], [⟨"b", 2, "nb"⟩]] : List (List SinkRec)).flatten.filter
          (fun s => s.id = "a")).getLast? = some lr
    ∧ (preprocess_contentfiles_model [⟨"a", 0, "old"⟩]
          [[⟨"a", 1, "na"⟩], [⟨"b", 2, "nb"⟩]] (some .zeroDivisionError)).1.filter
        (fun s => s.id = "a") = [lr] :=
  ⟨(merge_runs_on_failure [⟨"a", 0, "old"⟩]
      [[⟨"a", 1, "na"⟩], [⟨"b", 2, "nb"⟩]] .zeroDivisionError).1,
   (merge_runs_on_failure [⟨"a", 0, "old"⟩]
      [[⟨"a", 1, "na"⟩], [⟨"b", 2, "nb"⟩]] .zeroDivisionError).2
     ⟨"a", 1, "na"⟩ (by decide)⟩

/-! ## C5: partition coverage -/

/-- C5: with at least one candidate row and at least one worker allowed,
`workerCount = min(candidateCount, maxWorkers)` workers are given the ranges
`[i*rowsPerWorker, (i+1)*rowsPerWorker)` with `rowsPerWorker` the ceiling
division; every row index below `candidateCount` lies in a range of some
worker below `workerCount`, and the ranges are pairwise disjoint (so there
are no gaps and no overlaps; trailing ranges may extend past the count). -/
theorem partition_covers (n w : Nat) (hn : 0 < n) (hw : 0 < w) :
    preprocess_contentfiles_fpw n w = .ok ((n + min n w - 1) / min n w)
  ∧ (∀ j, j < n → ∃ i, i < min n w ∧
      (db_index_range ((n + min n w - 1) / min n w) i).1 ≤ j ∧
      j < (db_index_range ((n + min n w - 1) / min n w) i).2)
  ∧ (∀ i1 i2 j,
      (db_index_range ((n + min n w - 1) / min n w) i1).1 ≤ j →
      j < (db_index_range ((n + min n w - 1) / min n w) i1).2 →
      (db_index_range ((n + min n w - 1) / min n w) i2).1 ≤ j →
      j < (db_index_range ((n + min n w - 1) / min n w) i2).2 →
      i1 = i2) := by
  have hk : 0 < min n w := lt_min hn hw
  set k := min n w with hkdef
  set f := (n + k - 1) / k with hfdef
  have hf : 0 < f := by
    rw [hfdef]
    exact (Nat.le_div_iff_mul_le hk).2 (by omega)
  have hcov : n ≤ k * f := by
    have hdm := Nat.div_add_mod (n + k - 1) k
    have hml : (n + k - 1) % k < k := Nat.mod_lt _ hk
    rw [hfdef]
    omega
  refine ⟨?_, ?_, ?_⟩
  · unfold preprocess_contentfiles_fpw
    rw [if_neg (by omega)]
  · intro j hj
    refine ⟨j / f, ?_, ?_, ?_⟩
    · exact (Nat.div_lt_iff_lt_mul hf).2 (lt_of_lt_of_le hj hcov)
    · exact Nat.div_mul_le_self j f
    · show j < j / f * f + f
      rw [Nat.mul_comm]
      have hdm := Nat.div_add_mod j f
      have hml : j % f < f := Nat.mod_lt _ hf
      omega
  · intro i1 i2 j h11 h12 h21 h22
    simp only [db_index_range] at h11 h12 h21 h22
    have e1 : j / f = i1 :=
      Nat.div_eq_of_lt_le h11 (by rw [Nat.succ_mul]; exact h12)
    have e2 : j / f = i2 :=
      Nat.div_eq_of_lt_le h21 (by rw [Nat.succ_mul]; exact h22)
    omega

/-- Witness for `partition_covers`: 5 candidate rows over at most 4 workers
give 2 rows per worker. -/
theorem partition_covers_w : preprocess_contentfiles_fpw 5 4 = .ok 2 :=
  (partition_covers 5 4 (by decide) (by decide)).1

/-! ## C7: ratio derivation -/

/-- The entries contributed by the non-total keys of a count dict, in
iteration order: for each such key, the raw count under its escaped name
followed by the `ratio_`-prefixed quotient by the total. -/
def ratioEntries (t : Nat) (l : List (String × Nat)) : List (String × FeatVal) :=
  (l.filter (fun kv => kv.1 ≠ total_key)).flatMap
    (fun kv => [(escape_sql_key kv.1, FeatVal.int (kv.2 : Int)),
                (escape_sql_key ("ratio_" ++ kv.1), FeatVal.rat ((kv.2 : ℚ) / (t : ℚ)))])

/-- Inserting a fresh key into a dict appends it. -/
lemma dictInsert_fresh {α : Type} (d : List (String × α)) (k : String) (v : α)
    (h : k ∉ d.map Prod.fst) : dictInsert d k v = d ++ [(k, v)] := by
  unfold dictInsert
  rw [if_neg h]

/-- When all keys to be inserted are fresh (no collision with the
accumulator or among themselves), the ratio loop is plain appending of
`ratioEntries`. -/
lemma ratioLoop_eq (t : Nat) (ht : t ≠ 0) :
    ∀ (l : List (String × Nat)) (acc : List (String × FeatVal)),
      (acc.map Prod.fst ++ (ratioEntries t l).map Prod.fst).Nodup →
      ratioLoop t acc l = .ok (acc ++ ratioEntries t l) := by
  intro l
  induction l with
  | nil =>
    intro acc _
    simp [ratioLoop, ratioEntries]
  | cons kv rest ih =>
    intro acc hnd
    by_cases hk : kv.1 = total_key
    · have hre : ratioEntries t (kv :: rest) = ratioEntries t rest := by
        simp [ratioEntries, hk]
      unfold ratioLoop
      rw [if_pos hk, hre]
      rw [hre] at hnd
      exact ih acc hnd
    · have hre : ratioEntries t (kv :: rest) =
          (escape_sql_key kv.1, FeatVal.int (kv.2 : Int)) ::
          (escape_sql_key ("ratio_" ++ kv.1), FeatVal.rat ((kv.2 : ℚ) / (t : ℚ))) ::
          ratioEntries t rest := by
        simp [ratioEntries, hk]
      rw [hre] at hnd
      simp only [List.map_cons] at hnd
      have hdisj := List.disjoint_of_nodup_append hnd
      have h1 : escape_sql_key kv.1 ∉ acc.map Prod.fst := by
        intro hmem
        exact hdisj hmem (List.mem_cons_self _ _)
      have h2 : escape_sql_key ("ratio_" ++ kv.1) ∉
          (acc ++ [(escape_sql_key kv.1, FeatVal.int (kv.2 : Int))]).map Prod.fst := by
        rw [List.map_append]
        intro hmem
        rcases List.mem_append.1 hmem with hmem | hmem
        · exact hdisj hmem (List.mem_cons_of_mem _ (List.mem_cons_self _ _))
        · have hnd2 := (List.nodup_append.1 hnd).2.1
          simp only [List.map_cons, List.nodup_cons] at hnd2
          simp only [List.map_cons, List.map_nil, List.mem_singleton] at hmem
          exact hnd2.1 (by rw [← hmem]; exact List.mem_cons_self _ _)
      unfold ratioLoop
      rw [if_neg hk, if_neg ht]
      rw [dictInsert_fresh _ _ _ h1, dictInsert_fresh _ _ _ h2]
      have hnd3 : (((acc ++ [(escape_sql_key kv.1, FeatVal.int (kv.2 : Int))]) ++
            [(escape_sql_key ("ratio_" ++ kv.1), FeatVal.rat ((kv.2 : ℚ) / (t : ℚ)))]).map
            Prod.fst ++ (ratioEntries t rest).map Prod.fst).Nodup := by
        simpa [List.append_assoc] using hnd
      rw [ih _ hnd3, hre]
      simp [List.append_assoc]

/-- C7 (amended): `toRatios` of the empty mapping is the empty mapping; for
a mapping that contains the reserved total key with a nonzero total (and
whose escaped output names do not collide), it copies the total under its
sanitized key and, for every other key, emits the raw count and the exact
quotient `ratio_<key> = count / total`; in particular the documented
instance holds, the emitted ratio `10 / 100` being exactly `1 / 10 = 0.1`.
(A zero total instead raises `ZeroDivisionError` — see the counterexample —
and a non-empty mapping without the reserved key raises `KeyError`.) -/
theorem ratios_spec :
    instcounts2ratios [] = .ok []
  ∧ instcounts2ratios [(total_key, 100), ("basic blocks", 10)] =
      .ok [("instructions_of_all_types", FeatVal.int 100),
           ("basic_blocks", FeatVal.int 10),
           ("ratio_basic_blocks", FeatVal.rat (10 / 100))]
  ∧ (10 : ℚ) / 100 = 1 / 10
  ∧ (∀ counts t, List.lookup total_key counts = some t → t ≠ 0 →
      (escape_sql_key total_key :: (ratioEntries t counts).map Prod.fst).Nodup →
      instcounts2ratios counts =
        .ok ((escape_sql_key total_key, FeatVal.int (t : Int)) ::
          ratioEntries t counts)) := by
  have hgen : ∀ counts t, List.lookup total_key counts = some t → t ≠ 0 →
      (escape_sql_key total_key :: (ratioEntries t counts).map Prod.fst).Nodup →
      instcounts2ratios counts =
        .ok ((escape_sql_key total_key, FeatVal.int (t : Int)) ::
          ratioEntries t counts) := by
    intro counts t hlook ht hnd
    have hne : counts.length ≠ 0 := by
      intro h0
      rw [List.length_eq_zero.1 h0] at hlook
      cases hlook
    unfold instcounts2ratios
    rw [if_neg hne]
    simp only [hlook]
    rw [show dictInsert [] (escape_sql_key total_key) (FeatVal.int (t : Int)) =
        [(escape_sql_key total_key, FeatVal.int (t : Int))] by simp [dictInsert]]
    rw [ratioLoop_eq t ht counts _ (by simpa using hnd)]
    simp
  exact ⟨rfl, rfl, by norm_num, hgen⟩

/-- C7 (counterexample): a zero total with another key present makes the
float division raise `ZeroDivisionError` — no ratio entry is emitted for
such a (non-empty) mapping. -/
theorem ratios_spec_cex :
    instcounts2ratios [(total_key, 0), ("basic blocks", 10)] =
      .error .zeroDivisionError := rfl

/-- Witness for `ratios_spec`'s general clause at the documented instance. -/
theorem ratios_spec_w :
    instcounts2ratios [(total_key, 100), ("basic blocks", 10)] =
      .ok ((escape_sql_key total_key, FeatVal.int ((100 : Nat) : Int)) ::
        ratioEntries 100 [(total_key, 100), ("basic blocks", 10)]) :=
  ratios_spec.2.2.2 [(total_key, 100), ("basic blocks", 10)] 100 rfl
    (by decide) (by decide)

/-! ## C9: prototype sanitation -/

/-- Reference description of what `' '.join(s.split())` does to a text
whose first character is not whitespace: copy characters, replacing each
interior maximal whitespace run by one space and deleting a trailing run. -/
def collapseAux : List Char → List Char
  | [] => []
  | c :: rest =>
    if pyIsSpace c then
      if (rest.dropWhile pyIsSpace).isEmpty then []
      else ' ' :: collapseAux (rest.dropWhile pyIsSpace)
    else c :: collapseAux rest
termination_by l => l.length
decreasing_by
  · exact Nat.lt_succ_of_le ((List.dropWhile_sublist _).length_le)
  · exact Nat.lt_succ_of_le (Nat.le_refl _)

/-- Reference description of `' '.join(s.split())`: additionally delete the
leading whitespace run. -/
def collapseRuns (l : List Char) : List Char :=
  collapseAux (l.dropWhile pyIsSpace)

/-- `pyWords` on the empty text. -/
lemma pyWords_nil : pyWords [] = [] := rfl

/-- `pyWords` drops a leading whitespace character. -/
lemma pyWords_cons_space (c : Char) (r : List Char) (hc : pyIsSpace c = true) :
    pyWords (c :: r) = pyWords r := by
  rw [pyWords.eq_def]
  simp [hc]

/-- `pyWords` of a single non-whitespace character. -/
lemma pyWords_single_nonspace (c : Char) (hc : pyIsSpace c = false) :
    pyWords [c] = [[c]] := by
  rw [pyWords.eq_def]
  simp [hc]

/-- A non-whitespace character before whitespace opens a singleton word. -/
lemma pyWords_cons_cons_space (c d : Char) (rr : List Char)
    (hc : pyIsSpace c = false) (hd : pyIsSpace d = true) :
    pyWords (c :: d :: rr) = [c] :: pyWords (d :: rr) := by
  rw [pyWords.eq_def]
  simp [hc, hd]

/-- A non-whitespace character before a non-whitespace one extends the
first word of the rest. -/
lemma pyWords_cons_cons_nonspace (c d : Char) (rr : List Char)
    (hc : pyIsSpace c = false) (hd : pyIsSpace d = false) :
    pyWords (c :: d :: rr) =
      match pyWords (d :: rr) with
      | [] => [[c]]
      | w :: ws => (c :: w) :: ws := by
  rw [pyWords.eq_def]
  simp [hc, hd]

/-- Leading whitespace does not change the word list. -/
lemma pyWords_dropWhile (l : List Char) :
    pyWords (l.dropWhile pyIsSpace) = pyWords l := by
  induction l with
  | nil => rfl
  | cons c r ih =>
    by_cases hc : pyIsSpace c = true
    · rw [List.dropWhile_cons_of_pos hc, ih, pyWords_cons_space c r hc]
    · rw [List.dropWhile_cons_of_neg (by simpa using hc)]

/-- Text starting with a non-whitespace character has at least one word. -/
lemma pyWords_cons_ne_nil (d : Char) (rr : List Char) (hd : pyIsSpace d = false) :
    pyWords (d :: rr) ≠ [] := by
  cases rr with
  | nil => rw [pyWords_single_nonspace d hd]; simp
  | cons e ee =>
    by_cases he : pyIsSpace e = true
    · rw [pyWords_cons_cons_space d e ee hd he]; simp
    · rw [Bool.not_eq_true] at he
      rw [pyWords_cons_cons_nonspace d e ee hd he]
      cases pyWords (e :: ee) <;> simp

/-- Prepending a character to the first word prepends it to the join. -/
lemma pyJoinWords_cons_head (c : Char) (w : List Char) (ws : List (List Char)) :
    pyJoinWords ((c :: w) :: ws) = c :: pyJoinWords (w :: ws) := by
  cases ws with
  | nil => rfl
  | cons v vs => simp [pyJoinWords]

/-- `collapseAux` on the empty text. -/
lemma collapseAux_nil : collapseAux [] = [] := by
  simp [collapseAux]

/-- `collapseAux` copies a non-whitespace character. -/
lemma collapseAux_cons_nonspace (c : Char) (r : List Char)
    (hc : pyIsSpace c = false) : collapseAux (c :: r) = c :: collapseAux r := by
  simp only [collapseAux]
  simp [hc]

/-- `collapseAux` deletes a trailing whitespace run. -/
lemma collapseAux_cons_space_emp (c : Char) (r : List Char)
    (hc : pyIsSpace c = true) (h : r.dropWhile pyIsSpace = []) :
    collapseAux (c :: r) = [] := by
  simp only [collapseAux]
  simp [hc, h]

/-- `collapseAux` collapses an interior whitespace run to one space. -/
lemma collapseAux_cons_space_ne (c : Char) (r : List Char)
    (hc : pyIsSpace c = true) (h : r.dropWhile pyIsSpace ≠ []) :
    collapseAux (c :: r) = ' ' :: collapseAux (r.dropWhile pyIsSpace) := by
  simp only [collapseAux]
  simp [hc, h]

/-- On text that does not start with whitespace, joining the split words
collapses each interior whitespace run to one space and deletes a trailing
run. -/
lemma join_words_collapseAux :
    ∀ (n : Nat) (l : List Char), l.length ≤ n →
      (∀ c, l.head? = some c → pyIsSpace c = false) →
      pyJoinWords (pyWords l) = collapseAux l := by
  intro n
  induction n with
  | zero =>
    intro l hl _
    rw [List.length_eq_zero.1 (Nat.le_zero.1 hl), pyWords_nil, collapseAux_nil]
    rfl
  | succ n ih =>
    intro l hl hhead
    cases l with
    | nil => rw [pyWords_nil, collapseAux_nil]; rfl
    | cons c rest =>
      have hc : pyIsSpace c = false := hhead c rfl
      rw [collapseAux_cons_nonspace c rest hc]
      cases rest with
      | nil =>
        rw [pyWords_single_nonspace c hc, collapseAux_nil]
        rfl
      | cons d rr =>
        by_cases hd : pyIsSpace d = true
        · rw [pyWords_cons_cons_space c d rr hc hd]
          have hdw : (d :: rr).dropWhile pyIsSpace = rr.dropWhile pyIsSpace :=
            List.dropWhile_cons_of_pos hd
          by_cases hemp : (d :: rr).dropWhile pyIsSpace = []
          · have hw0 : pyWords (d :: rr) = [] := by
              rw [← pyWords_dropWhile (d :: rr), hemp, pyWords_nil]
            rw [hw0, collapseAux_cons_space_emp d rr hd (by rwa [hdw] at hemp)]
            rfl
          · have hemp2 : rr.dropWhile pyIsSpace ≠ [] := by rwa [hdw] at hemp
            rw [collapseAux_cons_space_ne d rr hd hemp2]
            have hw1 : pyWords (d :: rr) ≠ [] := by
              rw [← pyWords_dropWhile (d :: rr), hdw]
              cases hx : rr.dropWhile pyIsSpace with
              | nil => exact absurd hx hemp2
              | cons x xs =>
                have hxn : pyIsSpace x = false := by
                  have hh := List.head?_dropWhile_not pyIsSpace rr
                  rw [hx] at hh
                  exact hh
                exact pyWords_cons_ne_nil x xs hxn
            cases hw : pyWords (d :: rr) with
            | nil => exact absurd hw hw1
            | cons w ws =>
              have hjoin : pyJoinWords ([c] :: w :: ws) =
                  c :: ' ' :: pyJoinWords (w :: ws) := by
                simp [pyJoinWords]
              rw [hjoin]
              have hWrr : pyWords rr = w :: ws := by
                rw [← pyWords_cons_space d rr hd]
                exact hw
              have hW : pyWords (rr.dropWhile pyIsSpace) = w :: ws := by
                rw [pyWords_dropWhile rr]
                exact hWrr
              have hrec : pyJoinWords (pyWords (rr.dropWhile pyIsSpace)) =
                  collapseAux (rr.dropWhile pyIsSpace) := by
                refine ih _ ?_ ?_
                · have h1 : (rr.dropWhile pyIsSpace).length ≤ rr.length :=
                    (List.dropWhile_sublist _).length_le
                  have h2 : rr.length + 2 ≤ n + 1 := by simpa using hl
                  omega
                · intro x hx
                  have hh := List.head?_dropWhile_not pyIsSpace rr
                  rw [hx] at hh
                  exact hh
              rw [hW] at hrec
              rw [hrec]
        · rw [Bool.not_eq_true] at hd
          rw [pyWords_cons_cons_nonspace c d rr hc hd]
          have hw1 : pyWords (d :: rr) ≠ [] := pyWords_cons_ne_nil d rr hd
          cases hw : pyWords (d :: rr) with
          | nil => exact absurd hw hw1
          | cons w ws =>
            show pyJoinWords ((c :: w) :: ws) = c :: collapseAux (d :: rr)
            rw [pyJoinWords_cons_head, ← hw]
            have hrec : pyJoinWords (pyWords (d :: rr)) = collapseAux (d :: rr) := by
              refine ih _ (by simpa using hl) ?_
              intro x hx
              cases hx
              exact hd
            rw [hrec]

/-- `' '.join(s.split())` equals the run-collapsing description: delete the
leading whitespace run, collapse interior runs to single spaces, delete a
trailing run. -/
lemma join_words_eq_collapseRuns (l : List Char) :
    pyJoinWords (pyWords l) = collapseRuns l := by
  rw [collapseRuns, ← pyWords_dropWhile l]
  refine join_words_collapseAux (l.dropWhile pyIsSpace).length _ le_rfl ?_
  intro c hc
  have hh := List.head?_dropWhile_not pyIsSpace l
  rw [hc] at hh
  exact hh

/-- C9 (amended): an input without a brace is returned unchanged; for an
input containing one, the result is the prefix up to and including the first
brace — with its leading whitespace removed entirely and every interior
whitespace run collapsed to one space — followed by the untouched remainder;
in particular the documented example holds. -/
theorem sanitize_spec :
    (∀ src : String, '\x7b' ∉ src.toList → sanitize_prototype src = src)
  ∧ sanitize_prototype "int   foo(int x)\n\x7b\n  return x;\n\x7d" =
      "int foo(int x) \x7b\n  return x;\n\x7d"
  ∧ (∀ l : List Char, pyJoinWords (pyWords l) = collapseRuns l)
  ∧ (∀ (src : String) (i : Nat),
      src.toList.findIdx? (· = '\x7b') = some i →
      sanitize_prototype src =
        String.mk (collapseRuns (src.toList.take (i + 1)) ++
          src.toList.drop (i + 1))) := by
  refine ⟨?_, rfl, join_words_eq_collapseRuns, ?_⟩
  · intro src h
    have hnone : src.toList.findIdx? (· = '\x7b') = none := by
      rw [List.findIdx?_eq_none_iff]
      intro x hx
      simp only [decide_eq_false_iff_not]
      intro hxe
      exact h (hxe ▸ hx)
    unfold sanitize_prototype
    rw [hnone]
  · intro src i hidx
    unfold sanitize_prototype
    rw [hidx]
    show String.mk (pyJoinWords (pyWords (src.toList.take (i + 1))) ++
        src.toList.drop (i + 1)) =
      String.mk (collapseRuns (src.toList.take (i + 1)) ++ src.toList.drop (i + 1))
    rw [join_words_eq_collapseRuns]

/-- C9 (counterexample): the leading whitespace run of the prefix is deleted
rather than collapsed to a single space: on `"  \x7bb"` collapsing every
whitespace run of the prefix to one space would give `" \x7bb"`, but the
code returns `"\x7bb"`. -/
theorem sanitize_spec_cex :
    sanitize_prototype "  \x7bb" = "\x7bb"
  ∧ sanitize_prototype "  \x7bb" ≠ " \x7bb" :=
  ⟨rfl, by decide⟩

/-- Witness for `sanitize_spec`'s decomposition clause at the documented
example (whose first brace is at index 17). -/
theorem sanitize_spec_w :
    sanitize_prototype "int   foo(int x)\n\x7b\n  return x;\n\x7d" =
      String.mk
        (collapseRuns (("int   foo(int x)\n\x7b\n  return x;\n\x7d").toList.take 18) ++
          ("int   foo(int x)\n\x7b\n  return x;\n\x7d").toList.drop 18) :=
  sanitize_spec.2.2.2 ("int   foo(int x)\n\x7b\n  return x;\n\x7d") 17 rfl

end Clgen
